import Mathlib

/-!
# Verification of the yamcs_link core against its specification

Shallow embedding of the repository's three core modules:

* `utils.py` — the `SerDer` fixed-layout binary codec (`serialise`,
  `deserialise`);
* `yamcs_userlib.py` — the registry built by `update_index` /
  `_build_index` / `_register_telemetry` / `_register_command`, plus
  `call_tc`, `get_tc_def`, `get_tm_values` and `send_event`;
* `yamcs_link.py` — the link engine: `handle_command`, `send_telemetry`,
  the `send_event` override, `_recursively_call_on_disconnect` and
  `_close_tcp_connection`.

Modelling conventions:

* Byte strings are `List Nat` with each byte `< 256`; big-endian packing
  is explicit arithmetic (`struct` `>` formats have no padding).
* Python ints are `Int`; `struct.pack` range checks are explicit.
* Python floats appear only as payloads of `F32`/`F64` fields and are
  modelled by their IEEE-754 bit patterns (`Nat` below `2^32` / `2^64`):
  `struct.pack`/`unpack` on an exactly-representable float is precisely
  the big-endian transport of its bit pattern.  Rounding of doubles into
  `F32` slots is outside the model.
* Python `str` values are modelled by their UTF-8 byte sequences
  (`str.encode('utf-8')` / `bytes.decode('utf-8')` are mutually inverse
  bijections between strings and valid UTF-8 byte lists, so identifying
  the two loses nothing for the codec claims).
* Fallible code returns `Except`; an uncaught Python exception is an
  `.error`.
-/

/-! ## Field specifications (utils.py `SerDer.__init__`)

A field's `type` string is either a key of `PACK_FORMATS`
(`U8 U16 U32 I8 I16 I32 F32 F64`) or a fixed-size string `string<N>`
recognised by `STRING_TYPE_REGEX`; anything else raises `KeyError` at
codec construction.  We model the post-parse result. -/

inductive FieldType where
  | U8 | U16 | U32 | I8 | I16 | I32 | F32 | F64
  | FixedString (len : Nat)
  deriving DecidableEq, Repr

structure FieldSpec where
  name : String
  type : FieldType
  deriving DecidableEq, Repr

/-- Size (`struct.calcsize`) of one field of the big-endian format
(`B H I b h i f d` and `<len>s`). -/
def fieldSize : FieldType → Nat
  | .U8 => 1 | .U16 => 2 | .U32 => 4
  | .I8 => 1 | .I16 => 2 | .I32 => 4
  | .F32 => 4 | .F64 => 8
  | .FixedString len => len

/-- Minimum size `SerDer.minsize`, i.e. `struct.calcsize(self.format)` of the whole format. -/
def serMinsize (fields : List FieldSpec) : Nat :=
  (fields.map (fun f => fieldSize f.type)).sum

/-! ## Values -/

/-- A Python value handed to `serialise` / returned by `deserialise`:
an `int`, a float (by bit pattern, see the header comment), or a `str`
(by UTF-8 byte sequence). -/
inductive Value where
  | num (i : Int)
  | f32 (bits : Nat)
  | f64 (bits : Nat)
  | str (bytes : List Nat)
  deriving DecidableEq, Repr

/-- Errors surfaced by the codec, mirroring the Python exceptions:
`arity` = the explicit `ValueError` on mismatched lengths;
`typeMismatch` = `TypeError` / `struct.error` on a wrongly-typed value;
`stringTooLong` = the explicit `ValueError` on an over-long string;
`packRange` = `struct.error` on an out-of-range number;
`sizeMismatch` = `struct.error` from `unpack` on a wrongly-sized buffer. -/
inductive SerError where
  | arity | typeMismatch | stringTooLong | packRange | sizeMismatch
  deriving DecidableEq, Repr

deriving instance DecidableEq for Except

/-! ## Big-endian packing -/

/-- Big-endian bytes of `n`, `w` bytes wide (the transport of the
`struct` codes `B/H/I` and of float bit patterns). -/
def packUint : Nat → Nat → List Nat
  | 0, _ => []
  | w + 1, n => packUint w (n / 256) ++ [n % 256]

/-- Big-endian reading of a byte list as an unsigned integer
(inverse of `packUint` on in-range input). -/
def unpackUint (bs : List Nat) : Nat :=
  bs.foldl (fun acc b => acc * 256 + b) 0

/-- Two's-complement reading of a `w`-byte big-endian chunk
(`struct` codes `b/h/i`). -/
def unpackSigned (w : Nat) (bs : List Nat) : Int :=
  let u := unpackUint bs
  if u < 2 ^ (8 * w - 1) then (u : Int) else (u : Int) - 2 ^ (8 * w)

/-! ## `SerDer.serialise`

The Python method runs in two phases: the explicit loop builds
`processed_values` (doing the string-typed checks), and only then does
`struct.pack` run (doing the numeric range/type checks).  We keep the
two phases so that error precedence matches the source. -/

/-- One step of the `processed_values` loop of `SerDer.serialise`:
basic-typed values are appended as-is; a string field checks
`isinstance(value, str)`, then `len(str_bytes) >= length` (raising the
length `ValueError`), then pads with `ljust(length, b'\0')`. -/
def processOne (f : FieldSpec) (v : Value) : Except SerError Value :=
  match f.type with
  | .FixedString len =>
      match v with
      | .str s =>
          if len ≤ s.length then .error .stringTooLong
          else .ok (.str (s ++ List.replicate (len - s.length) 0))
      | _ => .error .typeMismatch
  | _ => .ok v

def processValues : List FieldSpec → List Value → Except SerError (List Value)
  | [], [] => .ok []
  | f :: fs, v :: vs =>
      match processOne f v with
      | .error e => .error e
      | .ok pv =>
          match processValues fs vs with
          | .error e => .error e
          | .ok rest => .ok (pv :: rest)
  | _, _ => .error .arity

/-- Packing (`struct.pack`) of one value at one format code: range-checks the
integer codes, transports float bit patterns, and (for `<len>s`)
truncates/pads bytes to the declared length. -/
def packOne (f : FieldSpec) (v : Value) : Except SerError (List Nat) :=
  match f.type, v with
  | .U8, .num i => if 0 ≤ i ∧ i < 256 then .ok (packUint 1 i.toNat) else .error .packRange
  | .U16, .num i => if 0 ≤ i ∧ i < 65536 then .ok (packUint 2 i.toNat) else .error .packRange
  | .U32, .num i => if 0 ≤ i ∧ i < 4294967296 then .ok (packUint 4 i.toNat) else .error .packRange
  | .I8, .num i =>
      if -128 ≤ i ∧ i < 128 then .ok (packUint 1 (i % 256).toNat) else .error .packRange
  | .I16, .num i =>
      if -32768 ≤ i ∧ i < 32768 then .ok (packUint 2 (i % 65536).toNat) else .error .packRange
  | .I32, .num i =>
      if -2147483648 ≤ i ∧ i < 2147483648 then .ok (packUint 4 (i % 4294967296).toNat)
      else .error .packRange
  | .F32, .f32 bits => if bits < 4294967296 then .ok (packUint 4 bits) else .error .packRange
  | .F64, .f64 bits =>
      if bits < 18446744073709551616 then .ok (packUint 8 bits) else .error .packRange
  | .FixedString len, .str s => .ok (s.take len ++ List.replicate (len - s.length) 0)
  | _, _ => .error .typeMismatch

def packAll : List FieldSpec → List Value → Except SerError (List Nat)
  | [], [] => .ok []
  | f :: fs, v :: vs =>
      match packOne f v with
      | .error e => .error e
      | .ok chunk =>
          match packAll fs vs with
          | .error e => .error e
          | .ok rest => .ok (chunk ++ rest)
  | _, _ => .error .arity

/-- Model of `SerDer.serialise`: the arity `ValueError`, then the
`processed_values` loop, then `struct.pack`. -/
def serialise (fields : List FieldSpec) (values : List Value) : Except SerError (List Nat) :=
  if fields.length = values.length then
    match processValues fields values with
    | .error e => .error e
    | .ok pvs => packAll fields pvs
  else .error .arity

/-! ## `SerDer.deserialise` -/

/-- Unpacking (`struct.unpack`) of one chunk plus the per-field post-processing of
`SerDer.deserialise`: a string field is cut at the first zero byte
(`split(b'\0', 1)[0]`) before UTF-8 decoding. -/
def decodeField : FieldType → List Nat → Value
  | .U8, bs => .num (unpackUint bs)
  | .U16, bs => .num (unpackUint bs)
  | .U32, bs => .num (unpackUint bs)
  | .I8, bs => unpackSigned 1 bs |> .num
  | .I16, bs => unpackSigned 2 bs |> .num
  | .I32, bs => unpackSigned 4 bs |> .num
  | .F32, bs => .f32 (unpackUint bs)
  | .F64, bs => .f64 (unpackUint bs)
  | .FixedString _, bs => .str (bs.takeWhile (· ≠ 0))

/-- The field-by-field consumption of the unpacked buffer, paired with
field names in declaration order (the Python method builds `result` as
an insertion-ordered dict; with distinct field names this is the same
association). -/
def unpackFields : List FieldSpec → List Nat → List (String × Value)
  | [], _ => []
  | f :: fs, bs =>
      (f.name, decodeField f.type (bs.take (fieldSize f.type)))
        :: unpackFields fs (bs.drop (fieldSize f.type))

/-- Model of `SerDer.deserialise`: with `exact_length=False` only the first
`minsize` bytes are read (`byte_stream[:self.minsize]`); `struct.unpack`
then demands its argument have exactly `minsize` bytes. -/
def deserialise (fields : List FieldSpec) (bs : List Nat) (exact : Bool) :
    Except SerError (List (String × Value)) :=
  let buf := if exact then bs else bs.take (serMinsize fields)
  if buf.length = serMinsize fields then .ok (unpackFields fields buf)
  else .error .sizeMismatch

/-! ## Component tree and registry (yamcs_userlib.py)

A `YAMCS_object` carries a `yamcs_name`, registered children, and
methods tagged by the `@telemetry` / `@telecommand` decorators.  The
decorators store: for telemetry a refresh period (ms) and the name of
the declared return type; for a telecommand the ordered annotation map
`{arg name: {'type': ..., 'min': ..., 'max': ...}}` (the bounds are
carried only for mission-database export and play no role here).
Each node gets a numeric `oid` standing for the Python object identity
of the component, so that "which bound method" is expressible. -/

inductive MethodKind where
  | tm (periodMs : Nat) (retType : String)
  | tc (args : List (String × String))
  deriving DecidableEq, Repr

structure Method where
  name : String
  kind : MethodKind
  deriving DecidableEq, Repr

inductive Component where
  | mk (oid : Nat) (name : String) (methods : List Method) (children : List Component)

def Component.oid : Component → Nat
  | .mk i _ _ _ => i

def Component.cname : Component → String
  | .mk _ n _ _ => n

def Component.methods : Component → List Method
  | .mk _ _ ms _ => ms

def Component.children : Component → List Component
  | .mk _ _ _ ch => ch

/-- Model of `YAMCS_object._get_potential_enum_repr_type`: a declared type name
is kept if it is a `PACK_FORMATS` key, otherwise it is assumed to be an
enum and replaced by `ENUM_REPR_TYPE = 'U8'`. -/
def reprType (typ : String) : FieldType :=
  if typ = "U8" then .U8 else if typ = "U16" then .U16 else if typ = "U32" then .U32
  else if typ = "I8" then .I8 else if typ = "I16" then .I16 else if typ = "I32" then .I32
  else if typ = "F32" then .F32 else if typ = "F64" then .F64
  else .U8

/-- One registration performed by `_build_index`: the computed full
name, the bound method's identity (owning object, method name), and the
decorator data. -/
structure RegEvent where
  fullname : String
  owner : Nat
  mname : String
  kind : MethodKind
  deriving DecidableEq, Repr

mutual

/-- The registration sequence produced by `_build_index(obj, pre)`:
all children are traversed first (with the prefix extended by
`obj.yamcs_name + "-"`), then `obj`'s own tagged methods are registered
under `pre + obj.yamcs_name + "-" + method_name`.  (`dir(obj)` yields
the object's methods in a fixed order; the order within one object is
immaterial to every claim below.) -/
def buildEvents : String → Component → List RegEvent
  | pre, .mk oid name ms ch =>
      buildEventsForest (pre ++ name ++ "-") ch
        ++ ms.map (fun m => ⟨pre ++ name ++ "-" ++ m.name, oid, m.name, m.kind⟩)

/-- The loop `for child in obj.children: self._build_index(child, ...)`. -/
def buildEventsForest : String → List Component → List RegEvent
  | _, [] => []
  | pre, c :: rest => buildEvents pre c ++ buildEventsForest pre rest

end

/-! ## Registry state and registration (`_register_telemetry`, `_register_command`) -/

/-- One entry of `self.telemetry[period]`: full name, the 1-field codec
built over the (enum-substituted) return type, and the bound method. -/
structure TMEntry where
  fullname : String
  ftype : FieldType
  owner : Nat
  mname : String
  deriving DecidableEq, Repr

/-- One entry of `self.commands`: full name, the argument codec's field
list, and the bound method (the handler). -/
structure CmdEntry where
  fullname : String
  fields : List FieldSpec
  owner : Nat
  mname : String
  deriving DecidableEq, Repr

/-- The compiled index: `self.telemetry` is a `defaultdict(list)`
(insertion-ordered, keyed by refresh period) and `self.commands` a list. -/
structure RegState where
  telemetry : List (Nat × List TMEntry)
  commands : List CmdEntry
  deriving DecidableEq, Repr

/-- Reading `self.telemetry[period]` (first — and, with dict keys,
only — binding; `[]` when the period is not yet a key). -/
def tmGroup : List (Nat × List TMEntry) → Nat → List TMEntry
  | [], _ => []
  | (q, g) :: rest, p => if q = p then g else tmGroup rest p

/-- Appending `self.telemetry[period].append(entry)` on the `defaultdict`: append
to the existing group, or create the key at the end (Python dicts keep
insertion order, so a first-seen period goes last). -/
def tmAppend : List (Nat × List TMEntry) → Nat → TMEntry → List (Nat × List TMEntry)
  | [], p, e => [(p, [e])]
  | (q, g) :: rest, p, e =>
      if q = p then (q, g ++ [e]) :: rest else (q, g) :: tmAppend rest p e

/-- Model of `_register_telemetry`: scan `self.telemetry[period]` for a
duplicate full name (raising `ValueError`), then append. -/
def registerTelemetry (st : RegState) (periodMs : Nat) (e : TMEntry) :
    Except String RegState :=
  if e.fullname ∈ (tmGroup st.telemetry periodMs).map TMEntry.fullname then
    .error ("Duplicate telemetry name: " ++ e.fullname)
  else .ok { st with telemetry := tmAppend st.telemetry periodMs e }

/-- Model of `_register_command`: scan `self.commands` for a duplicate full name
(raising `ValueError`), then append. -/
def registerCommand (st : RegState) (e : CmdEntry) : Except String RegState :=
  if e.fullname ∈ st.commands.map CmdEntry.fullname then
    .error ("Duplicate command name: " ++ e.fullname)
  else .ok { st with commands := st.commands ++ [e] }

/-- Dispatch of one discovered method to its registration function,
building the entry exactly as `_register_telemetry` /
`_register_command` do (the codec field types go through
`_get_potential_enum_repr_type`). -/
def applyEvent (st : RegState) (e : RegEvent) : Except String RegState :=
  match e.kind with
  | .tm periodMs retType =>
      registerTelemetry st periodMs ⟨e.fullname, reprType retType, e.owner, e.mname⟩
  | .tc args =>
      registerCommand st
        ⟨e.fullname, args.map (fun a => ⟨a.1, reprType a.2⟩), e.owner, e.mname⟩

def regFold : List RegEvent → RegState → Except String RegState
  | [], st => .ok st
  | e :: es, st =>
      match applyEvent st e with
      | .error msg => .error msg
      | .ok st' => regFold es st'

/-- Model of `update_index`: reset the index, then run `_build_index(self, "")`
(the registrations happen in exactly the order `buildEvents` lists
them). -/
def updateIndex (root : Component) : Except String RegState :=
  regFold (buildEvents "" root) ⟨[], []⟩

/-! ## `get_tc_def` and `call_tc` -/

/-- Model of `get_tc_def`: `{i: {'name': cmd['fullname'], 'args': ...} for i, cmd
in enumerate(self.commands)}` — an insertion-ordered dict whose key for
each command is its list index, i.e. its opcode. -/
def getTcDef (st : RegState) : List (Nat × String) :=
  st.commands.enum.map (fun ic => (ic.1, ic.2.fullname))

/-- The result of invoking a command handler: which bound method ran
(object identity and method name) and the keyword arguments passed. -/
structure Invocation where
  owner : Nat
  mname : String
  args : List (String × Value)
  deriving DecidableEq, Repr

inductive CallError where
  | indexError
  | ser (e : SerError)
  deriving DecidableEq, Repr

/-- Model of `call_tc(opcode, arg_data)`: `cmd = self.commands[opcode]` (an
`IndexError` escapes for an out-of-range opcode), then
`cmd['serder'].deserialise(arg_data, exact_length=True)`, then
`cmd['bndmethod'](**deserialized_args)`. -/
def callTc (cmds : List CmdEntry) (opcode : Nat) (argData : List Nat) :
    Except CallError Invocation :=
  match cmds[opcode]? with
  | none => .error .indexError
  | some cmd =>
      match deserialise cmd.fields argData true with
      | .error e => .error (.ser e)
      | .ok args => .ok ⟨cmd.owner, cmd.mname, args⟩

/-! ## Link engine configuration (yamcs_link.py) -/

/-- Modelled from the spec: `yamcs_mdb_gen.YAMCSMDBGen` (the
mission-database generator) is not under `src/`; the spec fixes only
that `OPCODE_TYPE`, `PACKETTYPE_TYPE` and `PACKETID_TYPE` are
"generator-defined width" unsigned integer wire fields and that
`PACKETTYPE_TLM` / `PACKETTYPE_EVENT` are the two packet-type values.
We model the three types by their byte widths (packed big-endian,
exactly as `SerDer` packs the `U8`/`U16`/`U32` family) and the two
values abstractly, together with the UDP port from the constructor. -/
structure LinkCfg where
  opW : Nat
  ptW : Nat
  pidW : Nat
  tlmVal : Nat
  evtVal : Nat
  udpPort : Nat
  deriving DecidableEq, Repr

/-- Constant `YAMCS_link.START_WORD`. -/
def START_WORD : Nat := 0xFEEDCAFE

/-- Target `self.udp_target = ('localhost', self.udp_port)` — the single
destination of every telemetry and event datagram. -/
def udpTarget (cfg : LinkCfg) : String × Nat :=
  ("localhost", cfg.udpPort)

/-- One `sendto` on the UDP socket. -/
structure Datagram where
  target : String × Nat
  payload : List Nat
  deriving DecidableEq, Repr

/-- Packing of one unsigned generator-typed header field (`struct.pack`). -/
def packUintChecked (w v : Nat) : Except SerError (List Nat) :=
  if v < 256 ^ w then .ok (packUint w v) else .error .packRange

/-! ## `handle_command` -/

/-- The observable outcome of one `handle_command(data)` call.  The
method always returns normally; `executed` is the only outcome in which
a command handler runs (`errorCaught` is the `except` clause: the
exception is logged and the service loop and connection continue). -/
inductive CmdOutcome where
  | droppedTooShort
  | droppedBadStartWord
  | droppedBadOpcode
  | droppedIncomplete
  | errorCaught
  | executed (opcode : Nat) (inv : Invocation)
  deriving DecidableEq, Repr

def CmdOutcome.invokesHandler : CmdOutcome → Bool
  | .executed _ _ => true
  | _ => false

/-- Model of `YAMCS_link.handle_command`.  The header deserialisation (fields
`start_word: U32`, `opcode: OPCODE_TYPE`, non-exact, over a buffer
already checked to be at least `header_size` long) is inlined: the
start word is the big-endian reading of bytes `0..4`, the opcode of the
next `opW` bytes. -/
def handleCommand (cfg : LinkCfg) (cmds : List CmdEntry) (data : List Nat) : CmdOutcome :=
  let headerSize := 4 + cfg.opW
  if data.length < headerSize then .droppedTooShort
  else
    let startWord := unpackUint (data.take 4)
    if startWord ≠ START_WORD then .droppedBadStartWord
    else
      let opcode := unpackUint ((data.drop 4).take cfg.opW)
      match cmds[opcode]? with
      | none => .droppedBadOpcode
      | some cmd =>
          if data.length < headerSize + serMinsize cmd.fields then .droppedIncomplete
          else
            match callTc cmds opcode (data.drop headerSize) with
            | .error _ => .errorCaught
            | .ok inv => .executed opcode inv

/-! ## `send_telemetry` (with `get_tm_values`)

Timestamps and the current time are in milliseconds.  The source keeps
`time.time()` seconds and compares `current_time - last >= period/1000`
with `period` in milliseconds; under exact arithmetic that is the
comparison in milliseconds used here. -/

/-- One registered telemetry point of a group at service time: its
1-field codec (from `_register_telemetry`) and the value its producer
`bndmethod()` returned for this cycle, after
`_cast_potential_enum_val`. -/
structure TMPoint where
  fullname : String
  ftype : FieldType
  value : Value
  deriving DecidableEq, Repr

/-- Model of `get_tm_values(period)`: serialise each point of the group with its
own codec and concatenate in declaration order; the first failing
serialisation raises. -/
def getTmValues : List TMPoint → Except SerError (List Nat)
  | [] => .ok []
  | p :: rest =>
      match serialise [⟨p.fullname, p.ftype⟩] [p.value] with
      | .error e => .error e
      | .ok bs =>
          match getTmValues rest with
          | .error e => .error e
          | .ok r => .ok (bs ++ r)

/-- Header bytes `self.tm_header_serder.serialise([self.TM_PACKETTYPE_VAL, i_period])`. -/
def tmHeaderBytes (cfg : LinkCfg) (i : Nat) : Except SerError (List Nat) :=
  match packUintChecked cfg.ptW cfg.tlmVal, packUintChecked cfg.pidW i with
  | .ok pt, .ok pid => .ok (pt ++ pid)
  | .error e, _ => .error e
  | _, .error e => .error e

/-- Reading `self.last_tm_send_time` (a dict keyed by period). -/
def lookupLast : List (Nat × Nat) → Nat → Option Nat
  | [], _ => none
  | (q, t) :: rest, p => if q = p then some t else lookupLast rest p

/-- Assignment `self.last_tm_send_time[period] = t` (in-place for an existing key,
appended in insertion order for a new one). -/
def setLast : List (Nat × Nat) → Nat → Nat → List (Nat × Nat)
  | [], p, t => [(p, t)]
  | (q, t0) :: rest, p, t =>
      if q = p then (q, t) :: rest else (q, t0) :: setLast rest p t

/-- The loop body of `send_telemetry` over
`enumerate(self.get_tm_periods())`.  Returns the final
`last_tm_send_time`, the datagrams sent (in order), and whether the
loop ran to completion — any exception aborts the remaining groups
(caught by the method's single `try`, which only logs). -/
def sendTmLoop (cfg : LinkCfg) :
    List (Nat × List TMPoint) → Nat → List (Nat × Nat) → Nat →
      List (Nat × Nat) × List Datagram × Bool
  | [], _, last, _ => (last, [], true)
  | (period, pts) :: rest, i, last, now =>
      -- `if period not in self.last_tm_send_time: ... = 0`
      let last := if (lookupLast last period).isNone then setLast last period 0 else last
      if (now : Int) - ((lookupLast last period).getD 0 : Int) ≥ (period : Int) then
        match getTmValues pts with
        | .error _ => (last, [], false)
        | .ok tmData =>
            if tmData.isEmpty then
              -- empty payload: no datagram, but the timestamp still updates
              sendTmLoop cfg rest (i + 1) (setLast last period now) now
            else
              match tmHeaderBytes cfg i with
              | .error _ => (last, [], false)
              | .ok hdr =>
                  let r := sendTmLoop cfg rest (i + 1) (setLast last period now) now
                  (r.1, ⟨udpTarget cfg, hdr ++ tmData⟩ :: r.2.1, r.2.2)
      else sendTmLoop cfg rest (i + 1) last now

/-- Model of `YAMCS_link.send_telemetry` on the compiled groups (insertion-order
`self.telemetry` with each point's current producer value). -/
def sendTelemetry (cfg : LinkCfg) (groups : List (Nat × List TMPoint))
    (last : List (Nat × Nat)) (now : Nat) :
    List (Nat × Nat) × List Datagram × Bool :=
  sendTmLoop cfg groups 0 last now

/-! ## Event path (`YAMCS_object.send_event`, `YAMCS_link.send_event`) -/

/-- Enum `yamcs_userlib.EventSeverity`. -/
inductive EventSeverity where
  | INFO | WARNING | ERROR | ALERT | DISTRESS | CRITICAL | FATAL
  deriving DecidableEq, Repr

/-- Value (`.value`) of each `EventSeverity` member. -/
def EventSeverity.val : EventSeverity → Nat
  | .INFO => 0 | .WARNING => 1 | .ERROR => 2 | .ALERT => 3
  | .DISTRESS => 5 | .CRITICAL => 6 | .FATAL => 7

def EVENT_SOURCESTR_SIZE : Nat := 80
def EVENT_MSG_SIZE : Nat := 256

/-- The non-generator fields of `YAMCS_link.EVENT_PACKET_FORMAT`
(`severity: U8`, `source: string80`, `message: string256`); the two
generator-typed header fields are packed in `eventSerialise`. -/
def eventBodyFields : List FieldSpec :=
  [⟨"severity", .U8⟩, ⟨"source", .FixedString EVENT_SOURCESTR_SIZE⟩,
   ⟨"message", .FixedString EVENT_MSG_SIZE⟩]

/-- Event bytes `self.event_serder.serialise([self.EVENTS_PACKETTYPE_VAL, 0,
severity.value, source, message])` over `EVENT_PACKET_FORMAT`. -/
def eventSerialise (cfg : LinkCfg) (sev : EventSeverity) (src msg : List Nat) :
    Except SerError (List Nat) :=
  match packUintChecked cfg.ptW cfg.evtVal, packUintChecked cfg.pidW 0,
      serialise eventBodyFields [.num sev.val, .str src, .str msg] with
  | .ok pt, .ok pid, .ok body => .ok (pt ++ pid ++ body)
  | .error e, _, _ => .error e
  | _, .error e, _ => .error e
  | _, _, .error e => .error e

/-- Outcome of a `send_event` call: one UDP datagram (the link root's
override fired), the `NotImplementedError` of a detached root, or a
serialisation exception escaping the override. -/
inductive EvtOutcome where
  | sent (d : Datagram)
  | raisedNotImplemented
  | raisedSer (e : SerError)
  deriving DecidableEq, Repr

/-- Model of `YAMCS_link.send_event` (the `@override`): a single
`self.udp_socket.sendto(self.event_serder.serialise([...]),
self.udp_target)`. -/
def linkSendEvent (cfg : LinkCfg) (sev : EventSeverity) (src msg : List Nat) : EvtOutcome :=
  match eventSerialise cfg sev src msg with
  | .ok bs => .sent ⟨udpTarget cfg, bs⟩
  | .error e => .raisedSer e

/-- Model of `YAMCS_object.send_event` along a parent chain of length `n` above
the calling component: each object with `self.parent is not None`
forwards `(severity, source, message)` verbatim to its parent; the
chain's top either is the link (whose override transmits) or raises
`NotImplementedError`. -/
def sendEventUp (cfg : LinkCfg) (rootIsLink : Bool) :
    Nat → EventSeverity → List Nat → List Nat → EvtOutcome
  | 0, sev, src, msg =>
      if rootIsLink then linkSendEvent cfg sev src msg else .raisedNotImplemented
  | n + 1, sev, src, msg => sendEventUp cfg rootIsLink n sev src msg

/-! ## Disconnect path (`_recursively_call_on_disconnect`,
`_close_tcp_connection`, the zero-length-read branch of `service`) -/

mutual

/-- Model of `_recursively_call_on_disconnect(obj)` reported as the sequence of
`on_disconnect()` calls, by callee object identity.  For each child in
order: recurse into the child (every modelled component is a
`YAMCSContainer`, i.e. carries a children list), then call the child's
own hook.  The argument object's own hook is not called. -/
def discCalls : Component → List Nat
  | .mk _ _ _ ch => discCallsForest ch

def discCallsForest : List Component → List Nat
  | [] => []
  | c :: rest => (discCalls c ++ [c.oid]) ++ discCallsForest rest

end

mutual

/-- All strict descendants of a component, listed pre-order — the
specification-side notion of "every registered component" below a
root. -/
def descIds : Component → List Nat
  | .mk _ _ _ ch => descForest ch

def descForest : List Component → List Nat
  | [] => []
  | c :: rest => c.oid :: (descIds c ++ descForest rest)

end

mutual

/-- All (child id, parent id) edges inside a subtree. -/
def edges : Component → List (Nat × Nat)
  | .mk oid _ _ ch => ch.map (fun c => (c.oid, oid)) ++ edgesForest ch

def edgesForest : List Component → List (Nat × Nat)
  | [] => []
  | c :: rest => edges c ++ edgesForest rest

end

/-- The session half of the link state touched by a disconnect:
`self.monitored_sock` (socket handles as numbers), `self.tcp_client_socket`,
and the registered component forest (`self.children`). -/
structure SessState where
  monitored : List Nat
  client : Option Nat
  tree : List Component

/-- Model of `_close_tcp_connection`: if a client socket exists, remove it from
the monitored list, close it, null the field, then run
`_recursively_call_on_disconnect(self)`; otherwise do nothing. -/
def closeTcpConnection (st : SessState) : SessState × List Nat :=
  match st.client with
  | none => (st, [])
  | some s =>
      ({ st with monitored := st.monitored.erase s, client := none },
       discCallsForest st.tree)

/-- The client-socket branch of one `service()` step: a non-empty
`recv` goes to `handle_command`; a zero-length read means the peer
closed and triggers `_close_tcp_connection` before the step returns. -/
def onClientData (cfg : LinkCfg) (cmds : List CmdEntry) (st : SessState) (data : List Nat) :
    SessState × List Nat × Option CmdOutcome :=
  if data.isEmpty then
    let r := closeTcpConnection st
    (r.1, r.2, none)
  else (st, [], some (handleCommand cfg cmds data))

/-- Specification-side description of the datagrams one completed
`send_telemetry` pass emits: for each group, indexed from `i` in
declaration order and judged due against the *initial* timestamp table,
the header-plus-payload datagram — unless the serialised payload is
empty, in which case nothing is sent for that group. -/
def expectedSends (cfg : LinkCfg) (groups : List (Nat × List TMPoint))
    (i : Nat) (last : List (Nat × Nat)) (now : Nat) : List Datagram :=
  (groups.enumFrom i).filterMap (fun ig =>
    if (now : Int) - ((lookupLast last ig.2.1).getD 0 : Int) ≥ (ig.2.1 : Int) then
      match getTmValues ig.2.2, tmHeaderBytes cfg ig.1 with
      | .ok d, .ok hdr => if d.isEmpty then none else some ⟨udpTarget cfg, hdr ++ d⟩
      | _, _ => none
    else none)

/-! ## Basic packing lemmas -/

theorem packUint_length (w n : Nat) : (packUint w n).length = w := by
  induction w generalizing n with
  | zero => rfl
  | succ w ih => simp [packUint, ih]

theorem unpackUint_snoc (l : List Nat) (b : Nat) :
    unpackUint (l ++ [b]) = unpackUint l * 256 + b := by
  simp [unpackUint, List.foldl_append]

theorem unpackUint_packUint (w n : Nat) : unpackUint (packUint w n) = n % 256 ^ w := by
  induction w generalizing n with
  | zero => simp [packUint, unpackUint]; omega
  | succ w ih =>
      rw [packUint, unpackUint_snoc, ih]
      have hp : (256 : Nat) ^ (w + 1) = 256 * 256 ^ w := by ring
      rw [hp, Nat.mod_mul]
      generalize n / 256 % 256 ^ w = x
      omega

/-- Per-field inversion: decoding the chunk that `serialise`'s two
phases produced for one field recovers the original value (strings must
be NUL-free, as the decoder cuts at the first zero byte). -/
theorem decode_packOne (nm : String) (t : FieldType) (v pv : Value) (chunk : List Nat)
    (hp : processOne ⟨nm, t⟩ v = .ok pv) (hk : packOne ⟨nm, t⟩ pv = .ok chunk)
    (hnul : ∀ s, v = .str s → 0 ∉ s) :
    decodeField t chunk = v ∧ chunk.length = fieldSize t := by
  cases t with
  | U8 =>
      simp only [processOne, Except.ok.injEq] at hp; subst hp
      cases v with
      | num i =>
          simp only [packOne] at hk
          split at hk
          · next hr =>
              obtain ⟨rfl⟩ : chunk = packUint 1 i.toNat := by
                exact (Except.ok.injEq _ _ ▸ hk).symm
              refine ⟨?_, by simp [packUint_length, fieldSize]⟩
              simp only [decodeField, unpackUint_packUint, Value.num.injEq]
              omega
          · exact absurd hk (by simp)
      | f32 b => exact absurd hk (by simp [packOne])
      | f64 b => exact absurd hk (by simp [packOne])
      | str s => exact absurd hk (by simp [packOne])
  | U16 =>
      simp only [processOne, Except.ok.injEq] at hp; subst hp
      cases v with
      | num i =>
          simp only [packOne] at hk
          split at hk
          · next hr =>
              obtain ⟨rfl⟩ : chunk = packUint 2 i.toNat := by
                exact (Except.ok.injEq _ _ ▸ hk).symm
              refine ⟨?_, by simp [packUint_length, fieldSize]⟩
              simp only [decodeField, unpackUint_packUint, Value.num.injEq]
              omega
          · exact absurd hk (by simp)
      | f32 b => exact absurd hk (by simp [packOne])
      | f64 b => exact absurd hk (by simp [packOne])
      | str s => exact absurd hk (by simp [packOne])
  | U32 =>
      simp only [processOne, Except.ok.injEq] at hp; subst hp
      cases v with
      | num i =>
          simp only [packOne] at hk
          split at hk
          · next hr =>
              obtain ⟨rfl⟩ : chunk = packUint 4 i.toNat := by
                exact (Except.ok.injEq _ _ ▸ hk).symm
              refine ⟨?_, by simp [packUint_length, fieldSize]⟩
              simp only [decodeField, unpackUint_packUint, Value.num.injEq]
              omega
          · exact absurd hk (by simp)
      | f32 b => exact absurd hk (by simp [packOne])
      | f64 b => exact absurd hk (by simp [packOne])
      | str s => exact absurd hk (by simp [packOne])
  | I8 =>
      simp only [processOne, Except.ok.injEq] at hp; subst hp
      cases v with
      | num i =>
          simp only [packOne] at hk
          split at hk
          · next hr =>
              obtain ⟨rfl⟩ : chunk = packUint 1 (i % 256).toNat := by
                exact (Except.ok.injEq _ _ ▸ hk).symm
              refine ⟨?_, by simp [packUint_length, fieldSize]⟩
              simp only [decodeField, unpackSigned, unpackUint_packUint, Value.num.injEq]
              norm_num
              split <;> omega
          · exact absurd hk (by simp)
      | f32 b => exact absurd hk (by simp [packOne])
      | f64 b => exact absurd hk (by simp [packOne])
      | str s => exact absurd hk (by simp [packOne])
  | I16 =>
      simp only [processOne, Except.ok.injEq] at hp; subst hp
      cases v with
      | num i =>
          simp only [packOne] at hk
          split at hk
          · next hr =>
              obtain ⟨rfl⟩ : chunk = packUint 2 (i % 65536).toNat := by
                exact (Except.ok.injEq _ _ ▸ hk).symm
              refine ⟨?_, by simp [packUint_length, fieldSize]⟩
              simp only [decodeField, unpackSigned, unpackUint_packUint, Value.num.injEq]
              norm_num
              split <;> omega
          · exact absurd hk (by simp)
      | f32 b => exact absurd hk (by simp [packOne])
      | f64 b => exact absurd hk (by simp [packOne])
      | str s => exact absurd hk (by simp [packOne])
  | I32 =>
      simp only [processOne, Except.ok.injEq] at hp; subst hp
      cases v with
      | num i =>
          simp only [packOne] at hk
          split at hk
          · next hr =>
              obtain ⟨rfl⟩ : chunk = packUint 4 (i % 4294967296).toNat := by
                exact (Except.ok.injEq _ _ ▸ hk).symm
              refine ⟨?_, by simp [packUint_length, fieldSize]⟩
              simp only [decodeField, unpackSigned, unpackUint_packUint, Value.num.injEq]
              norm_num
              split <;> omega
          · exact absurd hk (by simp)
      | f32 b => exact absurd hk (by simp [packOne])
      | f64 b => exact absurd hk (by simp [packOne])
      | str s => exact absurd hk (by simp [packOne])
  | F32 =>
      simp only [processOne, Except.ok.injEq] at hp; subst hp
      cases v with
      | f32 b =>
          simp only [packOne] at hk
          split at hk
          · next hr =>
              obtain ⟨rfl⟩ : chunk = packUint 4 b := by
                exact (Except.ok.injEq _ _ ▸ hk).symm
              refine ⟨?_, by simp [packUint_length, fieldSize]⟩
              simp only [decodeField, unpackUint_packUint, Value.f32.injEq]
              omega
          · exact absurd hk (by simp)
      | num i => exact absurd hk (by simp [packOne])
      | f64 b => exact absurd hk (by simp [packOne])
      | str s => exact absurd hk (by simp [packOne])
  | F64 =>
      simp only [processOne, Except.ok.injEq] at hp; subst hp
      cases v with
      | f64 b =>
          simp only [packOne] at hk
          split at hk
          · next hr =>
              obtain ⟨rfl⟩ : chunk = packUint 8 b := by
                exact (Except.ok.injEq _ _ ▸ hk).symm
              refine ⟨?_, by simp [packUint_length, fieldSize]⟩
              simp only [decodeField, unpackUint_packUint, Value.f64.injEq]
              omega
          · exact absurd hk (by simp)
      | num i => exact absurd hk (by simp [packOne])
      | f32 b => exact absurd hk (by simp [packOne])
      | str s => exact absurd hk (by simp [packOne])
  | FixedString len =>
      cases v with
      | str s =>
          simp only [processOne] at hp
          split at hp
          · exact absurd hp (by simp)
          · next hlt =>
              obtain ⟨rfl⟩ : pv = .str (s ++ List.replicate (len - s.length) 0) := by
                exact (Except.ok.injEq _ _ ▸ hp).symm
              have hs : s.length < len := by omega
              have hplen : (s ++ List.replicate (len - s.length) 0).length = len := by
                simp; omega
              simp only [packOne, Except.ok.injEq] at hk
              subst hk
              rw [List.take_of_length_le (le_of_eq hplen), hplen]
              simp only [Nat.sub_self, List.replicate_zero, List.append_nil]
              constructor
              · simp only [decodeField, Value.str.injEq]
                rw [List.takeWhile_append_of_pos]
                · rw [List.takeWhile_replicate]
                  simp
                · intro a ha
                  have := hnul s rfl
                  simp only [ne_eq, decide_eq_true_eq]
                  exact fun h0 => this (h0 ▸ ha)
              · simpa [fieldSize] using hplen
      | num i => exact absurd hp (by simp [processOne])
      | f32 b => exact absurd hp (by simp [processOne])
      | f64 b => exact absurd hp (by simp [processOne])

/-- A value whose decoded form cannot be cut short: its UTF-8 bytes (if
it is a string) contain no NUL byte. -/
def nulFree (v : Value) : Bool :=
  match v with
  | .str s => !s.contains 0
  | _ => true

theorem nulFree_str {v : Value} (h : nulFree v = true) :
    ∀ s, v = .str s → 0 ∉ s := by
  intro s hs
  subst hs
  simpa [nulFree] using h

/-- List-level inversion of `serialise`'s two phases: unpacking the
concatenated chunks field-by-field yields the declared names paired
with the original values, and the buffer has exactly `minsize` bytes. -/
theorem unpack_pack (fields : List FieldSpec) :
    ∀ (vs pvs : List Value) (bs : List Nat),
    processValues fields vs = .ok pvs → packAll fields pvs = .ok bs →
    (∀ v ∈ vs, nulFree v = true) →
    unpackFields fields bs = (fields.map FieldSpec.name).zip vs ∧
      bs.length = serMinsize fields := by
  induction fields with
  | nil =>
      intro vs pvs bs hp hk _
      cases vs with
      | nil =>
          simp only [processValues, Except.ok.injEq] at hp
          subst hp
          simp only [packAll, Except.ok.injEq] at hk
          subst hk
          simp [unpackFields, serMinsize]
      | cons v vs => exact absurd hp (by simp [processValues])
  | cons f fs ih =>
      intro vs pvs bs hp hk hnul
      cases vs with
      | nil => exact absurd hp (by simp [processValues])
      | cons v vs =>
          simp only [processValues] at hp
          cases hpo : processOne f v with
          | error e => rw [hpo] at hp; simp at hp
          | ok pv =>
              rw [hpo] at hp
              cases hpr : processValues fs vs with
              | error e => rw [hpr] at hp; simp at hp
              | ok rest =>
                  rw [hpr] at hp
                  simp only [Except.ok.injEq] at hp
                  subst hp
                  simp only [packAll] at hk
                  cases hko : packOne f pv with
                  | error e => rw [hko] at hk; simp at hk
                  | ok chunk =>
                      rw [hko] at hk
                      cases hkr : packAll fs rest with
                      | error e => rw [hkr] at hk; simp at hk
                      | ok more =>
                          rw [hkr] at hk
                          simp only [Except.ok.injEq] at hk
                          subst hk
                          have hf : (⟨f.name, f.type⟩ : FieldSpec) = f := rfl
                          have hone := decode_packOne f.name f.type v pv chunk
                            (hf ▸ hpo) (hf ▸ hko)
                            (nulFree_str (hnul v (by simp)))
                          have hrest := ih vs rest more hpr hkr
                            (fun v hv => hnul v (by simp [hv]))
                          refine ⟨?_, ?_⟩
                          · simp only [unpackFields, List.map_cons, List.zip_cons_cons]
                            rw [List.take_left' hone.2, List.drop_left' hone.2,
                              hone.1, hrest.1]
                          · simp only [List.length_append, hone.2, hrest.2,
                              serMinsize, List.map_cons, List.sum_cons]

/-- Claim C2: For every field list over the supported primitive types and
FixedString lengths, and every value list that `serialise` accepts
(correct arity, numbers in range for their declared width, strings
strictly shorter than the declared length) whose strings contain no NUL
byte, `deserialise (serialise values)` returns the field-name/value map
(insertion-ordered, as the Python dict) assigning each field name its
original value, string padding stripped. -/
theorem serder_roundtrip (fields : List FieldSpec) (values : List Value) (bs : List Nat)
    (hser : serialise fields values = .ok bs)
    (hnul : ∀ v ∈ values, nulFree v = true) :
    deserialise fields bs false = .ok ((fields.map FieldSpec.name).zip values) := by
  unfold serialise at hser
  split at hser
  · cases hpv : processValues fields values with
    | error e => rw [hpv] at hser; simp at hser
    | ok pvs =>
        rw [hpv] at hser
        have h := unpack_pack fields values pvs bs hpv hser hnul
        simp only [deserialise, Bool.false_eq_true, if_false]
        rw [List.take_of_length_le (le_of_eq h.2)]
        rw [if_pos h.2]
        exact congrArg Except.ok h.1
  · simp at hser

/-- Witness for C2 at the spec's end-to-end scenario A: fields
`[id:U16, name:string16, temperature:F32, status:U8]`, values
`[1234, "Test String", 23.5, 1]` (23.5 = bit pattern 0x41BC0000),
encoding to the 23-byte buffer and decoding back. -/
theorem serder_roundtrip_witness :
    deserialise
      [⟨"id", .U16⟩, ⟨"name", .FixedString 16⟩, ⟨"temperature", .F32⟩, ⟨"status", .U8⟩]
      [4, 210, 84, 101, 115, 116, 32, 83, 116, 114, 105, 110, 103, 0, 0, 0, 0, 0,
       65, 188, 0, 0, 1] false
      = .ok [("id", .num 1234),
             ("name", .str [84, 101, 115, 116, 32, 83, 116, 114, 105, 110, 103]),
             ("temperature", .f32 1102839808), ("status", .num 1)] :=
  serder_roundtrip
    [⟨"id", .U16⟩, ⟨"name", .FixedString 16⟩, ⟨"temperature", .F32⟩, ⟨"status", .U8⟩]
    [.num 1234, .str [84, 101, 115, 116, 32, 83, 116, 114, 105, 110, 103],
     .f32 1102839808, .num 1]
    [4, 210, 84, 101, 115, 116, 32, 83, 116, 114, 105, 110, 103, 0, 0, 0, 0, 0,
     65, 188, 0, 0, 1]
    (by decide) (by decide)

/-- Claim C7: For a FixedString field of declared length `L`, `serialise`
raises the length error whenever the value's UTF-8 byte length is at
least `L`, and succeeds — zero-padding to exactly `L` bytes — whenever
it is at most `L - 1`. -/
theorem fixed_string_bound (nm : String) (L : Nat) (s : List Nat) :
    (L ≤ s.length →
      serialise [⟨nm, .FixedString L⟩] [.str s] = .error .stringTooLong) ∧
    (s.length < L →
      serialise [⟨nm, .FixedString L⟩] [.str s] =
        .ok (s ++ List.replicate (L - s.length) 0)) := by
  constructor
  · intro h
    simp [serialise, processValues, processOne, h]
  · intro h
    have hpad : (s ++ List.replicate (L - s.length) 0).length = L := by simp; omega
    simp only [serialise, List.length_cons, List.length_nil, if_pos rfl,
      processValues, processOne, Nat.not_le.mpr h, if_neg (Nat.not_le.mpr h),
      if_true, if_false]
    simp only [packAll, packOne]
    rw [List.take_of_length_le (le_of_eq hpad), hpad]
    simp

/-- Witness for C7 at `L = 16`: a 16-byte string is rejected with the
length error, a 15-byte string encodes with one byte of padding. -/
theorem fixed_string_bound_witness :
    serialise [⟨"s", .FixedString 16⟩] [.str (List.replicate 16 65)] =
        .error .stringTooLong ∧
      serialise [⟨"s", .FixedString 16⟩] [.str (List.replicate 15 65)] =
        .ok (List.replicate 15 65 ++ List.replicate 1 0) :=
  ⟨(fixed_string_bound "s" 16 (List.replicate 16 65)).1 (by decide),
   (fixed_string_bound "s" 16 (List.replicate 15 65)).2 (by decide)⟩

/-- Claim C1: Every buffer failing a `handle_command` validation step is
dropped — (a) shorter than the command-header codec's minsize, (b)
start word ≠ 0xFEEDCAFE, (c) opcode ≥ number of registered commands,
(d) fewer bytes after the header than the command's argument codec
minsize — and in each case the outcome is the corresponding dropped
result, which invokes no handler (`invokesHandler = false`), the method
returning normally (it is total). -/
theorem handle_command_drops_invalid (cfg : LinkCfg) (cmds : List CmdEntry) (data : List Nat) :
    (data.length < 4 + cfg.opW →
      handleCommand cfg cmds data = .droppedTooShort ∧
        (handleCommand cfg cmds data).invokesHandler = false) ∧
    (4 + cfg.opW ≤ data.length → unpackUint (data.take 4) ≠ START_WORD →
      handleCommand cfg cmds data = .droppedBadStartWord ∧
        (handleCommand cfg cmds data).invokesHandler = false) ∧
    (4 + cfg.opW ≤ data.length → unpackUint (data.take 4) = START_WORD →
      cmds.length ≤ unpackUint ((data.drop 4).take cfg.opW) →
      handleCommand cfg cmds data = .droppedBadOpcode ∧
        (handleCommand cfg cmds data).invokesHandler = false) ∧
    (∀ cmd, 4 + cfg.opW ≤ data.length → unpackUint (data.take 4) = START_WORD →
      cmds[unpackUint ((data.drop 4).take cfg.opW)]? = some cmd →
      data.length < 4 + cfg.opW + serMinsize cmd.fields →
      handleCommand cfg cmds data = .droppedIncomplete ∧
        (handleCommand cfg cmds data).invokesHandler = false) := by
  refine ⟨?_, ?_, ?_, ?_⟩
  · intro h
    have : handleCommand cfg cmds data = .droppedTooShort := by
      simp [handleCommand, if_pos h]
    exact ⟨this, by rw [this]; rfl⟩
  · intro h1 h2
    have : handleCommand cfg cmds data = .droppedBadStartWord := by
      simp only [handleCommand, if_neg (Nat.not_lt.mpr h1)]
      rw [if_pos h2]
    exact ⟨this, by rw [this]; rfl⟩
  · intro h1 h2 h3
    have : handleCommand cfg cmds data = .droppedBadOpcode := by
      simp only [handleCommand, if_neg (Nat.not_lt.mpr h1)]
      rw [if_neg (by simpa using h2), List.getElem?_eq_none h3]
    exact ⟨this, by rw [this]; rfl⟩
  · intro cmd h1 h2 hget h3
    have : handleCommand cfg cmds data = .droppedIncomplete := by
      simp only [handleCommand, if_neg (Nat.not_lt.mpr h1)]
      rw [if_neg (by simpa using h2), hget]
      simp only [if_pos h3]
    exact ⟨this, by rw [this]; rfl⟩

/-- Witness for C1: with a 5-byte header (1-byte opcode) and one
registered command taking one `U8` argument, a 3-byte buffer, a 5-byte
buffer with start word 0, a valid-header buffer with opcode 5, and a
valid-header buffer with opcode 0 but no argument byte are each dropped
at the corresponding check. -/
theorem handle_command_drops_invalid_witness :
    handleCommand ⟨1, 1, 1, 0, 1, 10001⟩ [⟨"link-c-cmd", [⟨"arg1", .U8⟩], 7, "cmd"⟩]
        [1, 2, 3] = .droppedTooShort ∧
      handleCommand ⟨1, 1, 1, 0, 1, 10001⟩ [⟨"link-c-cmd", [⟨"arg1", .U8⟩], 7, "cmd"⟩]
        [0, 0, 0, 0, 0] = .droppedBadStartWord ∧
      handleCommand ⟨1, 1, 1, 0, 1, 10001⟩ [⟨"link-c-cmd", [⟨"arg1", .U8⟩], 7, "cmd"⟩]
        [254, 237, 202, 254, 5] = .droppedBadOpcode ∧
      handleCommand ⟨1, 1, 1, 0, 1, 10001⟩ [⟨"link-c-cmd", [⟨"arg1", .U8⟩], 7, "cmd"⟩]
        [254, 237, 202, 254, 0] = .droppedIncomplete :=
  ⟨((handle_command_drops_invalid ⟨1, 1, 1, 0, 1, 10001⟩
      [⟨"link-c-cmd", [⟨"arg1", .U8⟩], 7, "cmd"⟩] [1, 2, 3]).1 (by decide)).1,
   ((handle_command_drops_invalid ⟨1, 1, 1, 0, 1, 10001⟩
      [⟨"link-c-cmd", [⟨"arg1", .U8⟩], 7, "cmd"⟩] [0, 0, 0, 0, 0]).2.1
      (by decide) (by decide)).1,
   ((handle_command_drops_invalid ⟨1, 1, 1, 0, 1, 10001⟩
      [⟨"link-c-cmd", [⟨"arg1", .U8⟩], 7, "cmd"⟩] [254, 237, 202, 254, 5]).2.2.1
      (by decide) (by decide) (by decide)).1,
   ((handle_command_drops_invalid ⟨1, 1, 1, 0, 1, 10001⟩
      [⟨"link-c-cmd", [⟨"arg1", .U8⟩], 7, "cmd"⟩] [254, 237, 202, 254, 0]).2.2.2
      ⟨"link-c-cmd", [⟨"arg1", .U8⟩], 7, "cmd"⟩
      (by decide) (by decide) (by decide) (by decide)).1⟩

/-- Lemma: an `exact_length=True` deserialise that succeeded was given a
buffer of exactly `minsize` bytes. -/
theorem deserialise_exact_length {fields : List FieldSpec} {bs : List Nat}
    {r : List (String × Value)} (h : deserialise fields bs true = .ok r) :
    bs.length = serMinsize fields := by
  simp [deserialise] at h
  split at h
  · next hc => simpa using hc
  · simp at h

/-- Claim C10: For a buffer passing every header check, the handler runs
only when the bytes after the header are exactly the command's argument
codec minsize: an `executed` outcome forces
`len(data) = header_size + minsize`, and a strictly longer argument
section makes the `exact_length=True` decode inside `call_tc` raise, the
exception being caught (`errorCaught`, logged) with no handler invoked —
`handle_command` still returns normally, so the service loop continues
and the connection stays open. -/
theorem handle_command_exact_length (cfg : LinkCfg) (cmds : List CmdEntry) (data : List Nat) :
    (∀ op inv, handleCommand cfg cmds data = .executed op inv →
      ∃ cmd, cmds[op]? = some cmd ∧
        data.length = 4 + cfg.opW + serMinsize cmd.fields) ∧
    (∀ cmd, 4 + cfg.opW ≤ data.length → unpackUint (data.take 4) = START_WORD →
      cmds[unpackUint ((data.drop 4).take cfg.opW)]? = some cmd →
      4 + cfg.opW + serMinsize cmd.fields < data.length →
      handleCommand cfg cmds data = .errorCaught ∧
        (handleCommand cfg cmds data).invokesHandler = false) := by
  constructor
  · intro op inv h
    simp only [handleCommand] at h
    split at h
    · simp at h
    · next hlen1 =>
        split at h
        · simp at h
        · split at h
          · simp at h
          · next cmd hget =>
              split at h
              · simp at h
              · next hlen2 =>
                  cases hcall : callTc cmds (unpackUint (List.take cfg.opW (List.drop 4 data)))
                      (data.drop (4 + cfg.opW)) with
                  | error e => rw [hcall] at h; simp at h
                  | ok inv2 =>
                      rw [hcall] at h
                      simp only [CmdOutcome.executed.injEq] at h
                      obtain ⟨rfl, rfl⟩ := h
                      simp only [callTc, hget] at hcall
                      cases hdes : deserialise cmd.fields (data.drop (4 + cfg.opW)) true with
                      | error e => rw [hdes] at hcall; simp at hcall
                      | ok args =>
                          have hlen := deserialise_exact_length hdes
                          simp only [List.length_drop] at hlen
                          exact ⟨cmd, hget, by omega⟩
  · intro cmd h1 h2 hget h3
    have : handleCommand cfg cmds data = .errorCaught := by
      simp only [handleCommand, if_neg (Nat.not_lt.mpr h1)]
      rw [if_neg (by simpa using h2)]
      simp only [hget]
      rw [if_neg (by omega)]
      have hdes : deserialise cmd.fields (data.drop (4 + cfg.opW)) true =
          .error .sizeMismatch := by
        simp [deserialise]
        omega
      simp only [callTc, hget, hdes]
    exact ⟨this, by rw [this]; rfl⟩

/-- Witness for C10: with the 1-byte-opcode header and a single
1-byte-argument command, a 7-byte buffer (one argument byte too many)
ends in the caught-exception outcome; a 6-byte buffer is `executed` and
the theorem recovers the exact-length equation from it. -/
theorem handle_command_exact_length_witness :
    (handleCommand ⟨1, 1, 1, 0, 1, 10001⟩ [⟨"link-c-cmd", [⟨"arg1", .U8⟩], 7, "cmd"⟩]
        [254, 237, 202, 254, 0, 42, 43] = .errorCaught) ∧
      ∃ cmd, ([⟨"link-c-cmd", [⟨"arg1", .U8⟩], 7, "cmd"⟩] : List CmdEntry)[0]? = some cmd ∧
        ([254, 237, 202, 254, 0, 42] : List Nat).length = 4 + 1 + serMinsize cmd.fields :=
  ⟨((handle_command_exact_length ⟨1, 1, 1, 0, 1, 10001⟩
      [⟨"link-c-cmd", [⟨"arg1", .U8⟩], 7, "cmd"⟩] [254, 237, 202, 254, 0, 42, 43]).2
      ⟨"link-c-cmd", [⟨"arg1", .U8⟩], 7, "cmd"⟩
      (by decide) (by decide) (by decide) (by decide)).1,
   (handle_command_exact_length ⟨1, 1, 1, 0, 1, 10001⟩
      [⟨"link-c-cmd", [⟨"arg1", .U8⟩], 7, "cmd"⟩] [254, 237, 202, 254, 0, 42]).1
      0 ⟨7, "cmd", [("arg1", .num 42)]⟩ (by decide)⟩

/-- Claim C5: After `update_index`, `get_tc_def` keys each command by its
list index — the opcode of every command equals its position in
`self.commands` in registration order — and `call_tc(opcode, arg_data)`
looks up exactly the command stored at that index and invokes its bound
method with the deserialised named arguments. -/
theorem opcode_index_call_tc (root : Component) (st : RegState)
    (hbuild : updateIndex root = .ok st) :
    (∀ i (h : i < st.commands.length),
      (getTcDef st)[i]? = some (i, st.commands[i].fullname)) ∧
    (∀ op (h : op < st.commands.length) (argData : List Nat),
      argData.length = serMinsize st.commands[op].fields →
      callTc st.commands op argData =
        .ok ⟨st.commands[op].owner, st.commands[op].mname,
             unpackFields st.commands[op].fields argData⟩) := by
  constructor
  · intro i h
    simp [getTcDef, List.getElem?_enum, List.getElem?_eq_getElem h]
  · intro op h argData hlen
    have hget : st.commands[op]? = some st.commands[op] := List.getElem?_eq_getElem h
    have hdes : deserialise st.commands[op].fields argData true =
        .ok (unpackFields st.commands[op].fields argData) := by
      simp [deserialise, hlen]
    simp [callTc, hget, hdes]

/-- Witness for C5: building the index over a link root with two
commands, opcode 0 and 1 name the first and second registration, and
`call_tc 1` with a 2-byte argument buffer invokes the second command's
bound method with its decoded `U16` argument. -/
theorem opcode_index_call_tc_witness :
    (updateIndex (.mk 0 "link" []
        [.mk 1 "comp" [⟨"cmdA", .tc [("x", "U8")]⟩, ⟨"cmdB", .tc [("y", "U16")]⟩] []])
      = .ok ⟨[], [⟨"link-comp-cmdA", [⟨"x", .U8⟩], 1, "cmdA"⟩,
                  ⟨"link-comp-cmdB", [⟨"y", .U16⟩], 1, "cmdB"⟩]⟩) ∧
    (getTcDef ⟨[], [⟨"link-comp-cmdA", [⟨"x", .U8⟩], 1, "cmdA"⟩,
                    ⟨"link-comp-cmdB", [⟨"y", .U16⟩], 1, "cmdB"⟩]⟩)[1]?
      = some (1, "link-comp-cmdB") ∧
    callTc [⟨"link-comp-cmdA", [⟨"x", .U8⟩], 1, "cmdA"⟩,
            ⟨"link-comp-cmdB", [⟨"y", .U16⟩], 1, "cmdB"⟩] 1 [4, 210]
      = .ok ⟨1, "cmdB", [("y", .num 1234)]⟩ := by
  refine ⟨by decide, ?_, ?_⟩
  · exact (opcode_index_call_tc
      (.mk 0 "link" []
        [.mk 1 "comp" [⟨"cmdA", .tc [("x", "U8")]⟩, ⟨"cmdB", .tc [("y", "U16")]⟩] []])
      ⟨[], [⟨"link-comp-cmdA", [⟨"x", .U8⟩], 1, "cmdA"⟩,
            ⟨"link-comp-cmdB", [⟨"y", .U16⟩], 1, "cmdB"⟩]⟩ (by decide)).1 1 (by decide)
  · have h := (opcode_index_call_tc
      (.mk 0 "link" []
        [.mk 1 "comp" [⟨"cmdA", .tc [("x", "U8")]⟩, ⟨"cmdB", .tc [("y", "U16")]⟩] []])
      ⟨[], [⟨"link-comp-cmdA", [⟨"x", .U8⟩], 1, "cmdA"⟩,
            ⟨"link-comp-cmdB", [⟨"y", .U16⟩], 1, "cmdB"⟩]⟩ (by decide)).2 1 (by decide)
      [4, 210] (by decide)
    simpa using h

/-! ## C3: name-uniqueness during registry build -/

/-- With per-group-unique telemetry names, the group read for any
period has pairwise distinct full names. -/
theorem tmGroup_nodup (tel : List (Nat × List TMEntry)) (p : Nat)
    (h : ∀ pg ∈ tel, (pg.2.map TMEntry.fullname).Nodup) :
    ((tmGroup tel p).map TMEntry.fullname).Nodup := by
  induction tel with
  | nil => simp [tmGroup]
  | cons qg rest ih =>
      obtain ⟨q, g⟩ := qg
      by_cases hq : q = p
      · simpa [tmGroup, hq] using h (q, g) (by simp)
      · simpa [tmGroup, hq] using ih (fun pg hpg => h pg (by simp [hpg]))

/-- Membership in the updated `defaultdict`: a group either was already
there or is the read group with the new entry appended. -/
theorem mem_tmAppend (tel : List (Nat × List TMEntry)) (p : Nat) (e : TMEntry)
    (pg : Nat × List TMEntry) (h : pg ∈ tmAppend tel p e) :
    pg ∈ tel ∨ pg.2 = tmGroup tel p ++ [e] := by
  induction tel with
  | nil =>
      right
      simp only [tmAppend, List.mem_singleton] at h
      subst h
      simp [tmGroup]
  | cons qg rest ih =>
      obtain ⟨q, g⟩ := qg
      by_cases hq : q = p
      · simp only [tmAppend, if_pos hq] at h
        rcases List.mem_cons.mp h with h1 | h1
        · right
          rw [h1]
          simp only [tmGroup, if_pos hq]
        · exact Or.inl (List.mem_cons_of_mem _ h1)
      · simp only [tmAppend, if_neg hq] at h
        rcases List.mem_cons.mp h with h1 | h1
        · rw [h1]; exact Or.inl (List.mem_cons_self _ _)
        · rcases ih h1 with h2 | h2
          · exact Or.inl (List.mem_cons_of_mem _ h2)
          · right
            rw [h2]
            simp only [tmGroup, if_neg hq]

/-- One registration step preserves command-name uniqueness and
per-period telemetry-name uniqueness. -/
theorem applyEvent_nodup (st st' : RegState) (e : RegEvent)
    (h : applyEvent st e = .ok st')
    (hc : (st.commands.map CmdEntry.fullname).Nodup)
    (ht : ∀ pg ∈ st.telemetry, (pg.2.map TMEntry.fullname).Nodup) :
    (st'.commands.map CmdEntry.fullname).Nodup ∧
      ∀ pg ∈ st'.telemetry, (pg.2.map TMEntry.fullname).Nodup := by
  cases hk : e.kind with
  | tm periodMs retType =>
      simp only [applyEvent, hk, registerTelemetry] at h
      split at h
      · simp at h
      · next hnotmem =>
          simp only [Except.ok.injEq] at h
          subst h
          refine ⟨hc, ?_⟩
          intro pg hpg
          rcases mem_tmAppend st.telemetry periodMs _ pg hpg with h' | h'
          · exact ht pg h'
          · rw [h', List.map_append]
            rw [List.nodup_append]
            refine ⟨tmGroup_nodup st.telemetry periodMs ht, by simp, ?_⟩
            intro a ha hb
            simp only [List.map_cons, List.map_nil, List.mem_singleton] at hb
            subst hb
            exact hnotmem ha
  | tc args =>
      simp only [applyEvent, hk, registerCommand] at h
      split at h
      · simp at h
      · next hnotmem =>
          simp only [Except.ok.injEq] at h
          subst h
          refine ⟨?_, ht⟩
          simp only [List.map_append, List.map_cons, List.map_nil]
          rw [List.nodup_append]
          refine ⟨hc, by simp, ?_⟩
          intro a ha hb
          simp only [List.mem_singleton] at hb
          subst hb
          exact hnotmem ha

/-- The registration fold preserves the uniqueness invariants. -/
theorem regFold_nodup (evs : List RegEvent) :
    ∀ (st st' : RegState), regFold evs st = .ok st' →
    (st.commands.map CmdEntry.fullname).Nodup →
    (∀ pg ∈ st.telemetry, (pg.2.map TMEntry.fullname).Nodup) →
    (st'.commands.map CmdEntry.fullname).Nodup ∧
      ∀ pg ∈ st'.telemetry, (pg.2.map TMEntry.fullname).Nodup := by
  induction evs with
  | nil =>
      intro st st' h hc ht
      simp only [regFold, Except.ok.injEq] at h
      subst h
      exact ⟨hc, ht⟩
  | cons e es ih =>
      intro st st' h hc ht
      simp only [regFold] at h
      cases ha : applyEvent st e with
      | error msg => rw [ha] at h; simp at h
      | ok st1 =>
          rw [ha] at h
          have h1 := applyEvent_nodup st st1 e ha hc ht
          exact ih st1 st' h h1.1 h1.2

/-- Claim C3, amended: Within one `update_index` build, full names are
unique *among commands* and *among the telemetry points sharing one
refresh period*: a collision in either scope raises the construction
`ValueError` (so a successful build has none), and two telemetry
members with different parent prefixes but the same local name get
distinct full names and do not collide.  (As stated, the claim is
false: the duplicate scan of `_register_telemetry` only walks
`self.telemetry[period]`, so a telemetry point may share its full name
with a command or with a telemetry point of a different period without
any error — see the counterexample.) -/
theorem registry_uniqueness_scoped (root : Component) (st : RegState)
    (hbuild : updateIndex root = .ok st) :
    (st.commands.map CmdEntry.fullname).Nodup ∧
      ∀ pg ∈ st.telemetry, (pg.2.map TMEntry.fullname).Nodup :=
  regFold_nodup (buildEvents "" root) ⟨[], []⟩ st hbuild (by simp) (by simp)

/-- Witness for the amended C3: two components named `a` and `b`, each
with a telemetry member locally named `t` at the same period, build
successfully into one group holding the distinct full names `r-a-t`
and `r-b-t`. -/
theorem registry_uniqueness_scoped_witness :
    ((⟨[(1000, [⟨"r-a-t", .U8, 1, "t"⟩, ⟨"r-b-t", .U8, 2, "t"⟩])], []⟩ :
        RegState).commands.map CmdEntry.fullname).Nodup ∧
      ∀ pg ∈ (⟨[(1000, [⟨"r-a-t", .U8, 1, "t"⟩, ⟨"r-b-t", .U8, 2, "t"⟩])], []⟩ :
        RegState).telemetry, (pg.2.map TMEntry.fullname).Nodup :=
  registry_uniqueness_scoped
    (.mk 0 "r" [] [.mk 1 "a" [⟨"t", .tm 1000 "U8"⟩] [],
                   .mk 2 "b" [⟨"t", .tm 1000 "U8"⟩] []])
    ⟨[(1000, [⟨"r-a-t", .U8, 1, "t"⟩, ⟨"r-b-t", .U8, 2, "t"⟩])], []⟩
    (by decide)

/-- Claim C3 counterexample: Two sibling components both named `c`, each
with a telemetry member `t` but at different periods, build without any
error, yet both points carry the full name `r-c-t`: full names within
one registry snapshot are *not* all unique, and this collision raises
no construction-time error (the duplicate scan is per period group). -/
theorem registry_dup_fullname_counterexample :
    updateIndex (.mk 0 "r" [] [.mk 1 "c" [⟨"t", .tm 1000 "U8"⟩] [],
                               .mk 2 "c" [⟨"t", .tm 2000 "U8"⟩] []])
      = .ok ⟨[(1000, [⟨"r-c-t", .U8, 1, "t"⟩]), (2000, [⟨"r-c-t", .U8, 2, "t"⟩])], []⟩ ∧
    ((([(1000, [⟨"r-c-t", .U8, 1, "t"⟩]), (2000, [⟨"r-c-t", .U8, 2, "t"⟩])] :
        List (Nat × List TMEntry)).map (fun pg => pg.2.map TMEntry.fullname)).flatten
      = ["r-c-t", "r-c-t"]) ∧
    ¬ (["r-c-t", "r-c-t"] : List String).Nodup :=
  ⟨by decide, by decide, by decide⟩

/-! ## C4/C6: the telemetry scheduling loop -/

theorem lookupLast_setLast_same (l : List (Nat × Nat)) (p t : Nat) :
    lookupLast (setLast l p t) p = some t := by
  induction l with
  | nil => simp [setLast, lookupLast]
  | cons qt rest ih =>
      obtain ⟨q, t0⟩ := qt
      by_cases hq : q = p
      · simp [setLast, lookupLast, hq]
      · simp [setLast, lookupLast, hq, ih]

theorem lookupLast_setLast_other (l : List (Nat × Nat)) (p q t : Nat) (h : q ≠ p) :
    lookupLast (setLast l p t) q = lookupLast l q := by
  induction l with
  | nil =>
      simp only [setLast, lookupLast]
      rw [if_neg (by omega)]
  | cons rt rest ih =>
      obtain ⟨r, t0⟩ := rt
      by_cases hr : r = p
      · subst hr
        simp only [setLast, if_pos rfl, lookupLast]
        rw [if_neg (by omega), if_neg (by omega)]
      · simp only [setLast, if_neg hr, lookupLast]
        by_cases hrq : r = q
        · rw [if_pos hrq, if_pos hrq]
        · rw [if_neg hrq, if_neg hrq, ih]

/-- The loop touches only the periods of the groups it walks: any other
period's timestamp is untouched. -/
theorem sendTmLoop_preserves (cfg : LinkCfg) (groups : List (Nat × List TMPoint)) :
    ∀ (i : Nat) (last : List (Nat × Nat)) (now q : Nat),
    q ∉ groups.map Prod.fst →
    lookupLast (sendTmLoop cfg groups i last now).1 q = lookupLast last q := by
  induction groups with
  | nil => intro i last now q _; simp [sendTmLoop]
  | cons g gs ih =>
      intro i last now q hq
      obtain ⟨p, pts⟩ := g
      simp only [List.map_cons, List.mem_cons, not_or] at hq
      obtain ⟨hqp, hqs⟩ := hq
      have hqp' : q ≠ p := hqp
      simp only [sendTmLoop]
      set last1 := if (lookupLast last p).isNone then setLast last p 0 else last with hl1
      have hlook1 : lookupLast last1 q = lookupLast last q := by
        rw [hl1]
        split
        · exact lookupLast_setLast_other last p q 0 hqp'
        · rfl
      split
      · cases hg : getTmValues pts with
        | error e => simpa using hlook1
        | ok d =>
            dsimp only
            by_cases hd : d.isEmpty = true
            · rw [if_pos hd]
              rw [ih (i + 1) (setLast last1 p now) now q hqs,
                lookupLast_setLast_other last1 p q now hqp', hlook1]
            · rw [if_neg hd]
              cases hh : tmHeaderBytes cfg i with
              | error e => simpa using hlook1
              | ok hdr =>
                  dsimp only
                  rw [ih (i + 1) (setLast last1 p now) now q hqs,
                    lookupLast_setLast_other last1 p q now hqp', hlook1]
      · rw [ih (i + 1) last1 now q hqs, hlook1]

/-- Splicing the loop over an appended spine: if the loop over `xs` ran
to completion, the loop over `xs ++ ys` does `xs`'s work and then
continues over `ys` from `xs`'s final timestamp table, with the group
index shifted by `xs.length`. -/
theorem sendTmLoop_append (cfg : LinkCfg) (xs : List (Nat × List TMPoint)) :
    ∀ (ys : List (Nat × List TMPoint)) (i : Nat) (last : List (Nat × Nat)) (now : Nat),
    (sendTmLoop cfg xs i last now).2.2 = true →
    sendTmLoop cfg (xs ++ ys) i last now =
      ((sendTmLoop cfg ys (i + xs.length) (sendTmLoop cfg xs i last now).1 now).1,
       (sendTmLoop cfg xs i last now).2.1 ++
         (sendTmLoop cfg ys (i + xs.length) (sendTmLoop cfg xs i last now).1 now).2.1,
       (sendTmLoop cfg ys (i + xs.length) (sendTmLoop cfg xs i last now).1 now).2.2) := by
  induction xs with
  | nil =>
      intro ys i last now _
      simp [sendTmLoop]
  | cons g xs ih =>
      intro ys i last now hok
      obtain ⟨p, pts⟩ := g
      have hidx : i + 1 + xs.length = i + (xs.length + 1) := by omega
      simp only [sendTmLoop, List.cons_append, List.append_eq, List.length_cons] at hok ⊢
      set last1 := if (lookupLast last p).isNone then setLast last p 0 else last with hl1
      by_cases hdue : (now : Int) - ((lookupLast last1 p).getD 0 : Int) ≥ (p : Int)
      · simp only [if_pos hdue] at hok ⊢
        cases hg : getTmValues pts with
        | error e =>
            rw [hg] at hok
            simp at hok
        | ok d =>
            rw [hg] at hok
            dsimp only at hok ⊢
            by_cases hd : d.isEmpty = true
            · simp only [if_pos hd] at hok ⊢
              rw [ih ys (i + 1) (setLast last1 p now) now hok, hidx]
            · simp only [if_neg hd] at hok ⊢
              cases hh : tmHeaderBytes cfg i with
              | error e =>
                  rw [hh] at hok
                  simp at hok
              | ok hdr =>
                  rw [hh] at hok
                  dsimp only at hok ⊢
                  rw [ih ys (i + 1) (setLast last1 p now) now hok, hidx]
                  simp
      · simp only [if_neg hdue] at hok ⊢
        rw [ih ys (i + 1) last1 now hok, hidx]

/-- Claim C4, amended: A failing serialisation aborts the *whole*
telemetry pass for that cycle, not just the failing group: if every
group before the failing one completed and the failing group is due but
`get_tm_values` raises, the pass returns with exactly the earlier
groups' datagrams sent, the failing group unsent and its timestamp not
updated (beyond the zero-initialisation of a first-seen period), and no
later group evaluated, sent, or timestamp-updated in that service step.
(As stated — every later due group still sent — the claim is false: the
single `try` of `send_telemetry` wraps the whole loop, so the exception
skips all remaining groups; see the counterexample.) -/
theorem send_telemetry_abort_tail (cfg : LinkCfg) (pre post : List (Nat × List TMPoint))
    (p : Nat) (pts : List TMPoint) (last : List (Nat × Nat)) (now : Nat) (e : SerError)
    (hok : (sendTmLoop cfg pre 0 last now).2.2 = true)
    (hdue : (now : Int) -
      (((lookupLast (sendTmLoop cfg pre 0 last now).1 p).getD 0 : Nat) : Int) ≥ (p : Int))
    (hfail : getTmValues pts = .error e) :
    sendTelemetry cfg (pre ++ (p, pts) :: post) last now =
      ((if (lookupLast (sendTmLoop cfg pre 0 last now).1 p).isNone
          then setLast (sendTmLoop cfg pre 0 last now).1 p 0
          else (sendTmLoop cfg pre 0 last now).1),
       (sendTmLoop cfg pre 0 last now).2.1, false) := by
  rw [sendTelemetry, sendTmLoop_append cfg pre ((p, pts) :: post) 0 last now hok]
  set r := sendTmLoop cfg pre 0 last now with hr
  set last1 := if (lookupLast r.1 p).isNone then setLast r.1 p 0 else last with hl1
  have hdue1 : (now : Int) -
      (((lookupLast (if (lookupLast r.1 p).isNone then setLast r.1 p 0 else r.1) p).getD 0 :
        Nat) : Int) ≥ (p : Int) := by
    by_cases hn : (lookupLast r.1 p).isNone
    · rw [if_pos hn]
      rw [lookupLast_setLast_same]
      cases ho : lookupLast r.1 p with
      | some t => rw [ho] at hn; simp at hn
      | none => rw [ho] at hdue; simpa using hdue
    · rw [if_neg hn]
      exact hdue
  simp only [sendTmLoop, if_pos hdue1, hfail]
  simp

/-- Witness for the amended C4: a completed first group (period 100,
one `U8` point, value 5), then a due group whose `U8` point holds the
out-of-range value 300, then a third group: the pass stops at the
failure having sent only the first group's datagram `00 00 05` and
timestamped only the first two periods (the failing one with the
zero-initialisation). -/
theorem send_telemetry_abort_tail_witness :
    sendTelemetry ⟨1, 1, 1, 0, 1, 10001⟩
        [(100, [⟨"r-a-x", .U8, .num 5⟩]), (200, [⟨"r-b-y", .U8, .num 300⟩]),
         (300, [⟨"r-c-z", .U8, .num 7⟩])] [] 5000
      = ([(100, 5000), (200, 0)], [⟨("localhost", 10001), [0, 0, 5]⟩], false) :=
  (send_telemetry_abort_tail ⟨1, 1, 1, 0, 1, 10001⟩
    [(100, [⟨"r-a-x", .U8, .num 5⟩])] [(300, [⟨"r-c-z", .U8, .num 7⟩])]
    200 [⟨"r-b-y", .U8, .num 300⟩] [] 5000 .packRange
    (by decide) (by decide) (by decide)).trans (by decide)

/-- Claim C4 counterexample: With a failing first group (due, `U8` value
300 out of range) followed by a due, perfectly serialisable second
group, `send_telemetry` sends nothing at all and never timestamps the
second group — the later group is *not* evaluated and sent in the same
service step, contradicting the claim as stated. -/
theorem send_telemetry_failfast_counterexample :
    sendTelemetry ⟨1, 1, 1, 0, 1, 10001⟩
        [(100, [⟨"r-b-y", .U8, .num 300⟩]), (200, [⟨"r-a-x", .U8, .num 5⟩])] [] 5000
      = ([(100, 0)], [], false) ∧
    ((5000 : Int) - (((lookupLast ([] : List (Nat × Nat)) 200).getD 0 : Nat) : Int)
        ≥ (200 : Int)) ∧
    getTmValues [⟨"r-a-x", .U8, .num 5⟩] = .ok [5] ∧
    lookupLast [(100, 0)] 200 = none :=
  ⟨by decide, by decide, by decide, by decide⟩

/-- Congruence: `expectedSends` depends on the timestamp table only through the
walked groups' own periods. -/
theorem expectedSends_congr (cfg : LinkCfg) (gs : List (Nat × List TMPoint)) :
    ∀ (i now : Nat) (l1 l2 : List (Nat × Nat)),
    (∀ g ∈ gs, lookupLast l1 g.1 = lookupLast l2 g.1) →
    expectedSends cfg gs i l1 now = expectedSends cfg gs i l2 now := by
  induction gs with
  | nil => intro i now l1 l2 _; simp [expectedSends]
  | cons g gs ih =>
      intro i now l1 l2 h
      obtain ⟨p, pts⟩ := g
      have hp : lookupLast l1 p = lookupLast l2 p := h (p, pts) (by simp)
      have hrest := ih (i + 1) now l1 l2 (fun g hg => h g (by simp [hg]))
      simp only [expectedSends, List.enumFrom, List.filterMap_cons] at hrest ⊢
      rw [hp, hrest]

/-- Claim C6, amended: In every `send_telemetry` invocation in which no
group's serialisation fails (the loop completes), each due group — due
meaning elapsed time since its recorded last send, or since 0 for a
first-seen period, is at least its period — has its last-send timestamp
set to the current time, *including* groups whose serialised payload is
empty; and the datagrams actually sent are exactly `expectedSends`,
which emits nothing for an empty-payload group.  (As stated over every
invocation the claim is false: a serialisation failure in an earlier
group aborts the loop before a later due group's timestamp is written —
see the counterexample.) -/
theorem send_telemetry_due_updates (cfg : LinkCfg) (groups : List (Nat × List TMPoint)) :
    ∀ (i : Nat) (last : List (Nat × Nat)) (now : Nat),
    (groups.map Prod.fst).Nodup →
    (sendTmLoop cfg groups i last now).2.2 = true →
    (∀ g ∈ groups,
      (now : Int) - (((lookupLast last g.1).getD 0 : Nat) : Int) ≥ (g.1 : Int) →
      lookupLast (sendTmLoop cfg groups i last now).1 g.1 = some now) ∧
    (sendTmLoop cfg groups i last now).2.1 = expectedSends cfg groups i last now := by
  induction groups with
  | nil =>
      intro i last now _ _
      constructor
      · intro g hg; simp at hg
      · simp [sendTmLoop, expectedSends]
  | cons g gs ih =>
      intro i last now hnd hok
      obtain ⟨p, pts⟩ := g
      simp only [List.map_cons, List.nodup_cons] at hnd
      obtain ⟨hp, hnd⟩ := hnd
      simp only [sendTmLoop] at hok ⊢
      set last1 := if (lookupLast last p).isNone then setLast last p 0 else last with hl1
      have hgd : (lookupLast last1 p).getD 0 = (lookupLast last p).getD 0 := by
        rw [hl1]
        by_cases hn : (lookupLast last p).isNone
        · rw [if_pos hn, lookupLast_setLast_same]
          cases ho : lookupLast last p with
          | some t => rw [ho] at hn; simp at hn
          | none => simp
        · rw [if_neg hn]
      have hlq : ∀ q, q ≠ p → lookupLast last1 q = lookupLast last q := by
        intro q hq
        rw [hl1]
        by_cases hn : (lookupLast last p).isNone
        · rw [if_pos hn, lookupLast_setLast_other last p q 0 hq]
        · rw [if_neg hn]
      have hmemne : ∀ g ∈ gs, (g : Nat × List TMPoint).1 ≠ p := by
        intro g hgs he
        exact hp (he ▸ List.mem_map_of_mem Prod.fst hgs)
      by_cases hdue : (now : Int) - (((lookupLast last1 p).getD 0 : Nat) : Int) ≥ (p : Int)
      · simp only [if_pos hdue] at hok ⊢
        cases hg : getTmValues pts with
        | error e => rw [hg] at hok; simp at hok
        | ok d =>
            rw [hg] at hok
            dsimp only at hok ⊢
            by_cases hd : d.isEmpty = true
            · simp only [if_pos hd] at hok ⊢
              have ihr := ih (i + 1) (setLast last1 p now) now hnd hok
              constructor
              · intro g hgm hdg
                rcases List.mem_cons.mp hgm with rfl | hgs
                · show lookupLast (sendTmLoop cfg gs (i + 1) (setLast last1 p now) now).1 p
                    = some now
                  rw [sendTmLoop_preserves cfg gs (i + 1) (setLast last1 p now) now p hp,
                    lookupLast_setLast_same]
                · exact ihr.1 g hgs (by
                    rw [lookupLast_setLast_other last1 p g.1 now (hmemne g hgs),
                      hlq g.1 (hmemne g hgs)]
                    exact hdg)
              · rw [ihr.2,
                  expectedSends_congr cfg gs (i + 1) now (setLast last1 p now) last
                    (fun g hgs => by
                      rw [lookupLast_setLast_other last1 p g.1 now (hmemne g hgs),
                        hlq g.1 (hmemne g hgs)])]
                simp only [expectedSends, List.enumFrom, List.filterMap_cons]
                rw [hg, if_pos (by rw [← hgd]; exact hdue)]
                cases hh : tmHeaderBytes cfg i with
                | error e => rfl
                | ok hdr => simp [hd]
            · simp only [if_neg hd] at hok ⊢
              cases hh : tmHeaderBytes cfg i with
              | error e => rw [hh] at hok; simp at hok
              | ok hdr =>
                  rw [hh] at hok
                  dsimp only at hok ⊢
                  have ihr := ih (i + 1) (setLast last1 p now) now hnd hok
                  constructor
                  · intro g hgm hdg
                    rcases List.mem_cons.mp hgm with rfl | hgs
                    · show lookupLast
                          (sendTmLoop cfg gs (i + 1) (setLast last1 p now) now).1 p = some now
                      rw [sendTmLoop_preserves cfg gs (i + 1) (setLast last1 p now) now p hp,
                        lookupLast_setLast_same]
                    · exact ihr.1 g hgs (by
                        rw [lookupLast_setLast_other last1 p g.1 now (hmemne g hgs),
                          hlq g.1 (hmemne g hgs)]
                        exact hdg)
                  · rw [ihr.2,
                      expectedSends_congr cfg gs (i + 1) now (setLast last1 p now) last
                        (fun g hgs => by
                          rw [lookupLast_setLast_other last1 p g.1 now (hmemne g hgs),
                            hlq g.1 (hmemne g hgs)])]
                    simp only [expectedSends, List.enumFrom, List.filterMap_cons]
                    rw [hg, if_pos (by rw [← hgd]; exact hdue), hh]
                    simp [hd]
      · simp only [if_neg hdue] at hok ⊢
        have ihr := ih (i + 1) last1 now hnd hok
        constructor
        · intro g hgm hdg
          rcases List.mem_cons.mp hgm with rfl | hgs
          · exfalso
            apply hdue
            rw [hgd]
            simpa using hdg
          · exact ihr.1 g hgs (by rw [hlq g.1 (hmemne g hgs)]; exact hdg)
        · rw [ihr.2,
            expectedSends_congr cfg gs (i + 1) now last1 last
              (fun g hgs => hlq g.1 (hmemne g hgs))]
          simp only [expectedSends, List.enumFrom, List.filterMap_cons]
          rw [if_neg (fun h => hdue (by rw [hgd]; exact h))]

/-- Witness for the amended C6: two due groups at `now = 2500`, the
first with one `U8` point (value 5), the second empty.  The pass
completes; the empty group's timestamp is still set to 2500 while the
only datagram sent is the first group's `00 00 05`. -/
theorem send_telemetry_due_updates_witness :
    lookupLast (sendTmLoop ⟨1, 1, 1, 0, 1, 10001⟩
        [(1000, [⟨"r-a-x", .U8, .num 5⟩]), (2000, [])] 0 [] 2500).1 2000 = some 2500 ∧
    (sendTmLoop ⟨1, 1, 1, 0, 1, 10001⟩
        [(1000, [⟨"r-a-x", .U8, .num 5⟩]), (2000, [])] 0 [] 2500).2.1
      = [⟨("localhost", 10001), [0, 0, 5]⟩] :=
  ⟨by
    have h := (send_telemetry_due_updates ⟨1, 1, 1, 0, 1, 10001⟩
      [(1000, [⟨"r-a-x", .U8, .num 5⟩]), (2000, [])] 0 [] 2500 (by decide) (by decide)).1
      (2000, []) (by decide) (by decide)
    simpa using h,
   by
    have h := (send_telemetry_due_updates ⟨1, 1, 1, 0, 1, 10001⟩
      [(1000, [⟨"r-a-x", .U8, .num 5⟩]), (2000, [])] 0 [] 2500 (by decide) (by decide)).2
    exact h.trans (by decide)⟩

/-- Claim C6 counterexample: A due first group whose `U8` point holds the
out-of-range value 300 aborts the pass; the due second (empty) group is
never reached, so its last-send timestamp is *not* set to the current
time, contradicting the claim quantified over every invocation. -/
theorem send_telemetry_empty_group_counterexample :
    sendTelemetry ⟨1, 1, 1, 0, 1, 10001⟩
        [(100, [⟨"r-b-y", .U8, .num 300⟩]), (200, [])] [] 5000
      = ([(100, 0)], [], false) ∧
    ((5000 : Int) - (((lookupLast ([] : List (Nat × Nat)) 200).getD 0 : Nat) : Int)
        ≥ (200 : Int)) ∧
    lookupLast [(100, 0)] 200 = none :=
  ⟨by decide, by decide, by decide⟩

/-! ## C8: the event path -/

theorem packUint_one (n : Nat) (h : n < 256) : packUint 1 n = [n] := by
  simp [packUint, Nat.mod_eq_of_lt h, Nat.div_eq_of_lt h]

/-- Packing (`struct.pack`) of an already-padded string field is the identity. -/
theorem packOne_padded (nm : String) (L : Nat) (s : List Nat) (h : s.length < L) :
    packOne ⟨nm, .FixedString L⟩ (.str (s ++ List.replicate (L - s.length) 0))
      = .ok (s ++ List.replicate (L - s.length) 0) := by
  have hpad : (s ++ List.replicate (L - s.length) 0).length = L := by simp; omega
  simp only [packOne]
  rw [List.take_of_length_le (le_of_eq hpad), hpad]
  simp

theorem eventSerialise_eq (cfg : LinkCfg) (sev : EventSeverity) (src msg : List Nat)
    (h1 : cfg.evtVal < 256 ^ cfg.ptW) (h2 : src.length < 80) (h3 : msg.length < 256) :
    eventSerialise cfg sev src msg =
      .ok (packUint cfg.ptW cfg.evtVal ++ packUint cfg.pidW 0 ++
        ([sev.val] ++ ((src ++ List.replicate (80 - src.length) 0) ++
          ((msg ++ List.replicate (256 - msg.length) 0) ++ [])))) := by
  have hsev : sev.val < 256 := by cases sev <;> decide
  have hp : processValues eventBodyFields [.num (sev.val : Int), .str src, .str msg]
      = .ok [.num (sev.val : Int), .str (src ++ List.replicate (80 - src.length) 0),
             .str (msg ++ List.replicate (256 - msg.length) 0)] := by
    simp [processValues, processOne, eventBodyFields, EVENT_SOURCESTR_SIZE,
      EVENT_MSG_SIZE, Nat.not_le.mpr h2, Nat.not_le.mpr h3]
  have hsev0 : packOne ⟨"severity", .U8⟩ (.num (sev.val : Int)) = .ok [sev.val] := by
    simp only [packOne]
    rw [if_pos ⟨Int.natCast_nonneg _, by exact_mod_cast hsev⟩]
    rw [Int.toNat_natCast, packUint_one sev.val hsev]
  have hk : packAll eventBodyFields
      [.num (sev.val : Int), .str (src ++ List.replicate (80 - src.length) 0),
       .str (msg ++ List.replicate (256 - msg.length) 0)]
      = .ok ([sev.val] ++ ((src ++ List.replicate (80 - src.length) 0) ++
          ((msg ++ List.replicate (256 - msg.length) 0) ++ []))) := by
    simp only [packAll, eventBodyFields, EVENT_SOURCESTR_SIZE, EVENT_MSG_SIZE, hsev0,
      packOne_padded "source" 80 src h2, packOne_padded "message" 256 msg h3]
  have hbody : serialise eventBodyFields [.num (sev.val : Int), .str src, .str msg]
      = .ok ([sev.val] ++ ((src ++ List.replicate (80 - src.length) 0) ++
          ((msg ++ List.replicate (256 - msg.length) 0) ++ []))) := by
    simp only [serialise, eventBodyFields, List.length_cons, List.length_nil, if_true,
      if_pos rfl]
    rw [show (⟨"severity", .U8⟩ : FieldSpec) ::
        ⟨"source", .FixedString EVENT_SOURCESTR_SIZE⟩ ::
        [⟨"message", .FixedString EVENT_MSG_SIZE⟩] = eventBodyFields from rfl, hp]
    dsimp only
    rw [hk]
  simp only [eventSerialise, packUintChecked, if_pos h1,
    if_pos (pow_pos (by norm_num : (0 : Nat) < 256) cfg.pidW), hbody]

/-- Claim C8: A component whose parent is set forwards severity, source
and message unchanged to its parent; a detached root (no parent, no
override) raises `NotImplementedError` immediately; the link root's
override sends exactly one UDP datagram — to the same target as
telemetry — encoding, in order, the EVENT packet type, packet id 0, the
severity as `U8`, the source as `FixedString(80)` and the message as
`FixedString(256)`. -/
theorem send_event_chain (cfg : LinkCfg) (rootIsLink : Bool) (sev : EventSeverity)
    (src msg : List Nat) :
    (∀ n, sendEventUp cfg rootIsLink (n + 1) sev src msg =
        sendEventUp cfg rootIsLink n sev src msg) ∧
    (sendEventUp cfg false 0 sev src msg = .raisedNotImplemented) ∧
    (cfg.evtVal < 256 ^ cfg.ptW → src.length < 80 → msg.length < 256 →
      sendEventUp cfg true 0 sev src msg =
        .sent ⟨udpTarget cfg,
          packUint cfg.ptW cfg.evtVal ++ packUint cfg.pidW 0 ++ [sev.val] ++
            src ++ List.replicate (80 - src.length) 0 ++
            msg ++ List.replicate (256 - msg.length) 0⟩) := by
  refine ⟨fun n => by simp [sendEventUp], by simp [sendEventUp], ?_⟩
  intro h1 h2 h3
  have hev := eventSerialise_eq cfg sev src msg h1 h2 h3
  simp only [sendEventUp, if_pos rfl, linkSendEvent, hev]
  simp [List.append_assoc]

set_option maxRecDepth 8000 in
/-- Witness for C8 with a 1-byte packet-type/id generator width, event
packet type 2: a component two levels deep forwards unchanged; a
detached plain root raises; the link root emits the single datagram
`02 00 01 source·pad80 message·pad256`. -/
theorem send_event_chain_witness :
    (sendEventUp ⟨1, 1, 1, 0, 2, 10001⟩ true 3 .WARNING [65] [66, 67] =
        sendEventUp ⟨1, 1, 1, 0, 2, 10001⟩ true 2 .WARNING [65] [66, 67]) ∧
    (sendEventUp ⟨1, 1, 1, 0, 2, 10001⟩ false 0 .WARNING [65] [66, 67] =
        .raisedNotImplemented) ∧
    (sendEventUp ⟨1, 1, 1, 0, 2, 10001⟩ true 0 .WARNING [65] [66, 67] =
        .sent ⟨("localhost", 10001),
          [2] ++ [0] ++ [1] ++ [65] ++ List.replicate 79 0 ++
            [66, 67] ++ List.replicate 254 0⟩) :=
  ⟨(send_event_chain ⟨1, 1, 1, 0, 2, 10001⟩ true .WARNING [65] [66, 67]).1 2,
   (send_event_chain ⟨1, 1, 1, 0, 2, 10001⟩ false .WARNING [65] [66, 67]).2.1,
   ((send_event_chain ⟨1, 1, 1, 0, 2, 10001⟩ true .WARNING [65] [66, 67]).2.2
      (by decide) (by decide) (by decide)).trans (by decide)⟩

/-! ## C9: disconnect notification -/

/-- Any member of the forest has its hook called. -/
theorem mem_oid_discCallsForest (f : List Component) :
    ∀ c ∈ f, Component.oid c ∈ discCallsForest f := by
  induction f with
  | nil => intro c hc; simp at hc
  | cons c' rest ih =>
      intro c hc
      rcases List.mem_cons.mp hc with rfl | hm
      · simp [discCallsForest]
      · simp only [discCallsForest, List.mem_append]
        exact Or.inr (ih c hm)

/-- The hook-call sequence is a permutation of the strict descendants:
every registered component is called, none twice, none extra. -/
theorem discCallsForest_perm : ∀ (f : List Component),
    (discCallsForest f).Perm (descForest f)
  | [] => by simp [discCallsForest, descForest]
  | c :: rest => by
      obtain ⟨oid, nm, ms, ch⟩ := c
      have h1 := discCallsForest_perm ch
      have h2 := discCallsForest_perm rest
      simp only [discCallsForest, discCalls, descForest, descIds, Component.oid]
      have hA : (discCallsForest ch ++ [oid]).Perm (oid :: descForest ch) :=
        (List.perm_append_singleton oid (discCallsForest ch)).trans (h1.cons oid)
      have := hA.append h2
      simpa using this
termination_by f => sizeOf f

/-- Depth-first order: for every (child, parent) edge of the forest,
the child's hook call occurs strictly before the parent's. -/
theorem edgesForest_before : ∀ (f : List Component), ∀ ab ∈ edgesForest f,
    ∃ l1 l2, discCallsForest f = l1 ++ ab.1 :: l2 ∧ ab.2 ∈ l2
  | [] => by simp [edgesForest]
  | c :: rest => by
      intro ab hab
      obtain ⟨oid, nm, ms, ch⟩ := c
      simp only [edgesForest, edges, List.mem_append] at hab
      simp only [discCallsForest, discCalls, Component.oid]
      rcases hab with (hab | hab) | hab
      · obtain ⟨child, hchild, rfl⟩ := List.mem_map.mp hab
        obtain ⟨u1, u2, hsplit⟩ :=
          List.append_of_mem (mem_oid_discCallsForest ch child hchild)
        refine ⟨u1, u2 ++ oid :: discCallsForest rest, ?_, ?_⟩
        · rw [hsplit]
          simp
        · simp
      · obtain ⟨l1, l2, hsplit, hb⟩ := edgesForest_before ch ab hab
        refine ⟨l1, l2 ++ oid :: discCallsForest rest, ?_, ?_⟩
        · rw [hsplit]
          simp
        · simp [hb]
      · obtain ⟨l1, l2, hsplit, hb⟩ := edgesForest_before rest ab hab
        refine ⟨(discCallsForest ch ++ [oid]) ++ l1, l2, ?_, hb⟩
        rw [hsplit]
        simp
termination_by f => sizeOf f

/-- Claim C9: On a zero-length client read during a service step, the
client socket is removed from the monitored set and closed (nulled),
no command handling happens, and — before the step returns —
`on_disconnect` is called on the registered components exactly as
`_recursively_call_on_disconnect` lists them: a permutation of all
strict descendants of the link (each hook exactly once when component
identities are distinct), in depth-first order with every child called
before its parent. -/
theorem disconnect_hooks_depth_first (cfg : LinkCfg) (cmds : List CmdEntry)
    (st : SessState) (s : Nat) (hc : st.client = some s) :
    (onClientData cfg cmds st []).1.client = none ∧
    (onClientData cfg cmds st []).1.monitored = st.monitored.erase s ∧
    (onClientData cfg cmds st []).2.2 = none ∧
    (onClientData cfg cmds st []).2.1 = discCallsForest st.tree ∧
    (discCallsForest st.tree).Perm (descForest st.tree) ∧
    ((descForest st.tree).Nodup →
      ∀ x ∈ descForest st.tree, (discCallsForest st.tree).count x = 1) ∧
    (∀ ab ∈ edgesForest st.tree, ∃ l1 l2,
      discCallsForest st.tree = l1 ++ ab.1 :: l2 ∧ ab.2 ∈ l2) := by
  have hperm := discCallsForest_perm st.tree
  refine ⟨?_, ?_, ?_, ?_, hperm, ?_, edgesForest_before st.tree⟩
  · simp [onClientData, closeTcpConnection, hc]
  · simp [onClientData, closeTcpConnection, hc]
  · simp [onClientData, closeTcpConnection, hc]
  · simp [onClientData, closeTcpConnection, hc]
  · intro hnd x hx
    rw [hperm.count_eq x]
    exact List.count_eq_one_of_mem hnd hx

/-- Witness for C9: the link holds components 1 (with children 2 and 3)
and 4; sockets 9 (server) and 5 (client) are monitored.  A zero-length
read removes and nulls the client and produces the hook sequence
`[2, 3, 1, 4]` — every registered component once, children before their
parents (2,3 before 1) — handling no command. -/
theorem disconnect_hooks_depth_first_witness :
    (onClientData ⟨1, 1, 1, 0, 1, 10001⟩ []
        ⟨[9, 5], some 5,
         [.mk 1 "a" [] [.mk 2 "b" [] [], .mk 3 "c" [] []], .mk 4 "d" [] []]⟩
        []).1.client = none ∧
    (onClientData ⟨1, 1, 1, 0, 1, 10001⟩ []
        ⟨[9, 5], some 5,
         [.mk 1 "a" [] [.mk 2 "b" [] [], .mk 3 "c" [] []], .mk 4 "d" [] []]⟩
        []).1.monitored = [9] ∧
    (onClientData ⟨1, 1, 1, 0, 1, 10001⟩ []
        ⟨[9, 5], some 5,
         [.mk 1 "a" [] [.mk 2 "b" [] [], .mk 3 "c" [] []], .mk 4 "d" [] []]⟩
        []).2.1 = [2, 3, 1, 4] ∧
    (discCallsForest
        [.mk 1 "a" [] [.mk 2 "b" [] [], .mk 3 "c" [] []], .mk 4 "d" [] []]).count 1 = 1 := by
  have h := disconnect_hooks_depth_first ⟨1, 1, 1, 0, 1, 10001⟩ []
    ⟨[9, 5], some 5,
     [.mk 1 "a" [] [.mk 2 "b" [] [], .mk 3 "c" [] []], .mk 4 "d" [] []]⟩ 5 rfl
  refine ⟨h.1, h.2.1.trans (by decide), h.2.2.2.1.trans (by decide), ?_⟩
  exact h.2.2.2.2.2.1 (by decide) 1 (by decide)
